import Mathlib

/-!
# Verification of the typst-cli package acquisition layer

A shallow embedding of `crates/typst-cli/src/package.rs`: mirror
configuration, directory resolution, latest-version discovery, and the
download/unpack orchestration of `prepare_package`.  External
collaborators (the `dirs` crate, the HTTP transport in `crate::download`,
gzip/tar decoding, and the terminal) are modelled as an explicit
environment; the filesystem is a predicate on path strings and every
operation returns, besides its result, the updated filesystem and the
list of URLs fetched.
-/

set_option autoImplicit false

namespace TypstPackage

/-- `typst::syntax::package::PackageVersion`: a `major.minor.patch`
triple, totally ordered lexicographically (the Rust type derives `Ord`
on the fields in declaration order). -/
structure PackageVersion where
  major : Nat
  minor : Nat
  patch : Nat
  deriving DecidableEq, Repr

/-- Lexicographic order on versions, as derived in Rust. -/
def PackageVersion.vle (a b : PackageVersion) : Bool :=
  if a.major < b.major then true
  else if b.major < a.major then false
  else if a.minor < b.minor then true
  else if b.minor < a.minor then false
  else a.patch ≤ b.patch

/-- `typst::syntax::package::PackageSpec`; the `namespace` field is
renamed `nspace` because `namespace` is a Lean keyword. -/
structure PackageSpec where
  nspace : String
  name : String
  version : PackageVersion
  deriving DecidableEq, Repr

/-- `typst::syntax::package::VersionlessPackageSpec`. -/
structure VersionlessPackageSpec where
  nspace : String
  name : String
  deriving DecidableEq, Repr

/-- `typst::syntax::package::PackageInfo`: one record of the remote
package index (only the fields this subsystem reads). -/
structure PackageInfo where
  name : String
  version : PackageVersion
  deriving DecidableEq, Repr

/-- Display of a `PackageVersion` (`impl Display` joins the three
components with dots). -/
def versionToString (v : PackageVersion) : String :=
  toString v.major ++ "." ++ toString v.minor ++ "." ++ toString v.patch

/-- Fuelled worker for `replaceAll`; the fuel only serves to make the
recursion structural, `replaceAllFuel_congr` shows it is irrelevant
whenever it is at least the length of the scanned list. -/
def replaceAllFuel (pat rep : List Char) : Nat → List Char → List Char
  | _, [] => []
  | 0, c :: rest => c :: rest
  | fuel + 1, c :: rest =>
    if !pat.isEmpty && pat.isPrefixOf (c :: rest) then
      rep ++ replaceAllFuel pat rep fuel ((c :: rest).drop pat.length)
    else
      c :: replaceAllFuel pat rep fuel rest

/-- Replace every (non-overlapping, leftmost-first) occurrence of `pat`
by `rep`, the semantics of Rust's `str::replace` for a non-empty
pattern, on character lists. -/
def replaceAll (pat rep s : List Char) : List Char :=
  replaceAllFuel pat rep s.length s

@[simp]
theorem replaceAllFuel_nil (pat rep : List Char) (f : Nat) :
    replaceAllFuel pat rep f [] = [] := by
  cases f <;> rfl

theorem replaceAllFuel_congr (pat rep : List Char) :
    ∀ f₁ f₂ s, s.length ≤ f₁ → s.length ≤ f₂ →
      replaceAllFuel pat rep f₁ s = replaceAllFuel pat rep f₂ s := by
  intro f₁
  induction f₁ with
  | zero =>
    intro f₂ s h₁ _
    have : s = [] := List.eq_nil_of_length_eq_zero (Nat.le_zero.mp h₁)
    subst this
    simp
  | succ g ih =>
    intro f₂ s h₁ h₂
    match s with
    | [] => simp
    | c :: rest =>
      match f₂ with
      | 0 => simp at h₂
      | g' + 1 =>
        simp only [replaceAllFuel]
        cases hc : (!pat.isEmpty && pat.isPrefixOf (c :: rest)) with
        | true =>
          rw [if_pos rfl, if_pos rfl]
          have hpat : pat ≠ [] := by
            intro hnil
            subst hnil
            simp at hc
          have hplen : 0 < pat.length := List.length_pos.mpr hpat
          have hd : ((c :: rest).drop pat.length).length ≤ g := by
            simp only [List.length_drop, List.length_cons]
            simp only [List.length_cons] at h₁
            omega
          have hd' : ((c :: rest).drop pat.length).length ≤ g' := by
            simp only [List.length_drop, List.length_cons]
            simp only [List.length_cons] at h₂
            omega
          rw [ih _ _ hd hd']
        | false =>
          rw [if_neg Bool.false_ne_true, if_neg Bool.false_ne_true]
          have hr : rest.length ≤ g := by
            simp only [List.length_cons] at h₁; omega
          have hr' : rest.length ≤ g' := by
            simp only [List.length_cons] at h₂; omega
          rw [ih _ _ hr hr']

theorem replaceAll_cons (pat rep : List Char) (c : Char) (rest : List Char) :
    replaceAll pat rep (c :: rest) =
      if !pat.isEmpty && pat.isPrefixOf (c :: rest) then
        rep ++ replaceAll pat rep ((c :: rest).drop pat.length)
      else
        c :: replaceAll pat rep rest := by
  show replaceAllFuel pat rep (rest.length + 1) (c :: rest) = _
  simp only [replaceAllFuel]
  cases hc : (!pat.isEmpty && pat.isPrefixOf (c :: rest)) with
  | true =>
    rw [if_pos rfl, if_pos rfl]
    congr 1
    apply replaceAllFuel_congr
    · have hpat : pat ≠ [] := by
        intro hnil
        subst hnil
        simp at hc
      have := List.length_pos.mpr hpat
      simp only [List.length_drop, List.length_cons]
      omega
    · exact Nat.le_refl _
  | false =>
    rw [if_neg Bool.false_ne_true, if_neg Bool.false_ne_true]
    rfl

@[simp]
theorem replaceAll_nil (pat rep : List Char) : replaceAll pat rep [] = [] := rfl

/-- The characters of the `$name` placeholder. -/
def nameTok : List Char := ['$', 'n', 'a', 'm', 'e']

/-- The characters of the `$version` placeholder. -/
def verTok : List Char := ['$', 'v', 'e', 'r', 's', 'i', 'o', 'n']

/-- `PkgMirror`: one mirror entry of the configuration, a URL template
containing the literal placeholders `$name` and `$version`. -/
structure PkgMirror where
  path : String
  deriving DecidableEq, Repr

/-- `PkgMirror::package_download_url`: substitute the placeholders,
`$name` first, then `$version`
(`self.path.replace("$name", pkg_name).replace("$version", pkg_version)`). -/
def PkgMirror.package_download_url (m : PkgMirror) (pkg_name pkg_version : String) :
    String :=
  ⟨replaceAll verTok pkg_version.data (replaceAll nameTok pkg_name.data m.path.data)⟩

example : PkgMirror.package_download_url ⟨"h/$name-$version.gz"⟩ "a" "1.0.0" =
    "h/a-1.0.0.gz" := by decide

example : versionToString ⟨1, 2, 0⟩ = "1.2.0" := by decide

theorem replaceAll_skip (pat rep : List Char) (c : Char) (s : List Char)
    (h : pat.isPrefixOf (c :: s) = false) :
    replaceAll pat rep (c :: s) = c :: replaceAll pat rep s := by
  rw [replaceAll_cons, if_neg]
  simp [h]

theorem isPrefixOf_self_append (l s : List Char) : l.isPrefixOf (l ++ s) = true := by
  induction l with
  | nil => simp [List.isPrefixOf]
  | cons c tl ih => simp [List.isPrefixOf, ih]

theorem drop_self_append (l s : List Char) : (l ++ s).drop l.length = s := by
  induction l with
  | nil => rfl
  | cons c tl ih => exact ih

theorem replaceAll_hit (pat rep s : List Char) (hpat : pat ≠ []) :
    replaceAll pat rep (pat ++ s) = rep ++ replaceAll pat rep s := by
  cases pat with
  | nil => exact absurd rfl hpat
  | cons p pt =>
    have hcond : (!(p :: pt).isEmpty && (p :: pt).isPrefixOf ((p :: pt) ++ s)) = true := by
      simp [isPrefixOf_self_append]
    rw [List.cons_append, replaceAll_cons, ← List.cons_append, if_pos hcond,
      drop_self_append]

theorem isPrefixOf_cons_false (tl : List Char) (c : Char) (s : List Char)
    (h : c ≠ '$') : (('$' :: tl).isPrefixOf (c :: s)) = false := by
  have hb : ('$' == c) = false := by
    rw [beq_eq_false_iff_ne]
    exact fun hh => h hh.symm
  simp [List.isPrefixOf, hb]

theorem replaceAll_copy (pat rep : List Char) (n s : List Char)
    (hpat : ∃ tl, pat = '$' :: tl) (h : '$' ∉ n) :
    replaceAll pat rep (n ++ s) = n ++ replaceAll pat rep s := by
  obtain ⟨tl, rfl⟩ := hpat
  induction n with
  | nil => rfl
  | cons c cs ih =>
    have hc : c ≠ '$' := by
      intro hc
      exact h (hc ▸ List.mem_cons_self c cs)
    have hcs : '$' ∉ cs := fun hm => h (List.mem_cons_of_mem c hm)
    rw [List.cons_append, replaceAll_skip _ _ _ _ (isPrefixOf_cons_false tl c _ hc),
      ih hcs, List.cons_append]

theorem replaceAll_ver_skip_name (v s : List Char) :
    replaceAll verTok v (nameTok ++ s) = nameTok ++ replaceAll verTok v s := by
  show replaceAll verTok v ('$' :: 'n' :: 'a' :: 'm' :: 'e' :: s) =
    '$' :: 'n' :: 'a' :: 'm' :: 'e' :: replaceAll verTok v s
  rw [replaceAll_skip verTok v '$' ('n' :: 'a' :: 'm' :: 'e' :: s) rfl,
    replaceAll_skip verTok v 'n' ('a' :: 'm' :: 'e' :: s) rfl,
    replaceAll_skip verTok v 'a' ('m' :: 'e' :: s) rfl,
    replaceAll_skip verTok v 'm' ('e' :: s) rfl,
    replaceAll_skip verTok v 'e' s rfl]

theorem replaceAll_name_skip_ver (n s : List Char) :
    replaceAll nameTok n (verTok ++ s) = verTok ++ replaceAll nameTok n s := by
  show replaceAll nameTok n
      ('$' :: 'v' :: 'e' :: 'r' :: 's' :: 'i' :: 'o' :: 'n' :: s) =
    '$' :: 'v' :: 'e' :: 'r' :: 's' :: 'i' :: 'o' :: 'n' :: replaceAll nameTok n s
  rw [replaceAll_skip nameTok n '$' ('v' :: 'e' :: 'r' :: 's' :: 'i' :: 'o' :: 'n' :: s) rfl,
    replaceAll_skip nameTok n 'v' ('e' :: 'r' :: 's' :: 'i' :: 'o' :: 'n' :: s) rfl,
    replaceAll_skip nameTok n 'e' ('r' :: 's' :: 'i' :: 'o' :: 'n' :: s) rfl,
    replaceAll_skip nameTok n 'r' ('s' :: 'i' :: 'o' :: 'n' :: s) rfl,
    replaceAll_skip nameTok n 's' ('i' :: 'o' :: 'n' :: s) rfl,
    replaceAll_skip nameTok n 'i' ('o' :: 'n' :: s) rfl,
    replaceAll_skip nameTok n 'o' ('n' :: s) rfl,
    replaceAll_skip nameTok n 'n' s rfl]

/-- A URL template seen as a list of segments: literal characters and
the two placeholders. -/
inductive Seg where
  | lit : Char → Seg
  | nameph : Seg
  | verph : Seg
  deriving DecidableEq, Repr

/-- The template string a segment list denotes. -/
def renderTemplate : List Seg → List Char
  | [] => []
  | .lit c :: rest => c :: renderTemplate rest
  | .nameph :: rest => nameTok ++ renderTemplate rest
  | .verph :: rest => verTok ++ renderTemplate rest

/-- Substitute both placeholders. -/
def substSegs (n v : List Char) : List Seg → List Char
  | [] => []
  | .lit c :: rest => c :: substSegs n v rest
  | .nameph :: rest => n ++ substSegs n v rest
  | .verph :: rest => v ++ substSegs n v rest

/-- Substitute only `$name`, keep `$version` literal. -/
def substNameOnly (n : List Char) : List Seg → List Char
  | [] => []
  | .lit c :: rest => c :: substNameOnly n rest
  | .nameph :: rest => n ++ substNameOnly n rest
  | .verph :: rest => verTok ++ substNameOnly n rest

/-- Substitute only `$version`, keep `$name` literal. -/
def substVerOnly (v : List Char) : List Seg → List Char
  | [] => []
  | .lit c :: rest => c :: substVerOnly v rest
  | .nameph :: rest => nameTok ++ substVerOnly v rest
  | .verph :: rest => v ++ substVerOnly v rest

/-- A template is clean when every `'$'` in it starts a placeholder,
i.e. no literal segment is the character `'$'`. -/
def cleanSegs (segs : List Seg) : Bool :=
  segs.all fun s =>
    match s with
    | .lit c => c ≠ '$'
    | _ => true

theorem cleanSegs_tail {s : Seg} {rest : List Seg}
    (h : cleanSegs (s :: rest) = true) : cleanSegs rest = true := by
  simp only [cleanSegs, List.all_cons, Bool.and_eq_true] at h ⊢
  exact h.2

theorem cleanSegs_lit {c : Char} {rest : List Seg}
    (h : cleanSegs (.lit c :: rest) = true) : c ≠ '$' := by
  simp only [cleanSegs, List.all_cons, Bool.and_eq_true] at h
  simpa using h.1

theorem replaceAll_name_render (n : List Char) (segs : List Seg)
    (hclean : cleanSegs segs = true) :
    replaceAll nameTok n (renderTemplate segs) = substNameOnly n segs := by
  induction segs with
  | nil => rfl
  | cons s rest ih =>
    have hrest := cleanSegs_tail hclean
    cases s with
    | lit c =>
      have hs := cleanSegs_lit hclean
      simp only [renderTemplate, substNameOnly]
      rw [replaceAll_skip nameTok n c _ (isPrefixOf_cons_false _ c _ hs), ih hrest]
    | nameph =>
      simp only [renderTemplate, substNameOnly]
      rw [replaceAll_hit nameTok n _ (by simp [nameTok]), ih hrest]
    | verph =>
      simp only [renderTemplate, substNameOnly]
      rw [replaceAll_name_skip_ver, ih hrest]

theorem replaceAll_ver_substName (n v : List Char) (segs : List Seg)
    (hclean : cleanSegs segs = true) (hn : '$' ∉ n) :
    replaceAll verTok v (substNameOnly n segs) = substSegs n v segs := by
  induction segs with
  | nil => rfl
  | cons s rest ih =>
    have hrest := cleanSegs_tail hclean
    cases s with
    | lit c =>
      have hs := cleanSegs_lit hclean
      simp only [substNameOnly, substSegs]
      rw [replaceAll_skip verTok v c _ (isPrefixOf_cons_false _ c _ hs), ih hrest]
    | nameph =>
      simp only [substNameOnly, substSegs]
      rw [replaceAll_copy verTok v n _ ⟨_, rfl⟩ hn, ih hrest]
    | verph =>
      simp only [substNameOnly, substSegs]
      rw [replaceAll_hit verTok v _ (by simp [verTok]), ih hrest]

theorem replaceAll_ver_render (v : List Char) (segs : List Seg)
    (hclean : cleanSegs segs = true) :
    replaceAll verTok v (renderTemplate segs) = substVerOnly v segs := by
  induction segs with
  | nil => rfl
  | cons s rest ih =>
    have hrest := cleanSegs_tail hclean
    cases s with
    | lit c =>
      have hs := cleanSegs_lit hclean
      simp only [renderTemplate, substVerOnly]
      rw [replaceAll_skip verTok v c _ (isPrefixOf_cons_false _ c _ hs), ih hrest]
    | nameph =>
      simp only [renderTemplate, substVerOnly]
      rw [replaceAll_ver_skip_name, ih hrest]
    | verph =>
      simp only [renderTemplate, substVerOnly]
      rw [replaceAll_hit verTok v _ (by simp [verTok]), ih hrest]

theorem replaceAll_name_substVer (n v : List Char) (segs : List Seg)
    (hclean : cleanSegs segs = true) (hv : '$' ∉ v) :
    replaceAll nameTok n (substVerOnly v segs) = substSegs n v segs := by
  induction segs with
  | nil => rfl
  | cons s rest ih =>
    have hrest := cleanSegs_tail hclean
    cases s with
    | lit c =>
      have hs := cleanSegs_lit hclean
      simp only [substVerOnly, substSegs]
      rw [replaceAll_skip nameTok n c _ (isPrefixOf_cons_false _ c _ hs), ih hrest]
    | nameph =>
      simp only [substVerOnly, substSegs]
      rw [replaceAll_hit nameTok n _ (by simp [nameTok]), ih hrest]
    | verph =>
      simp only [substVerOnly, substSegs]
      rw [replaceAll_copy nameTok n v _ ⟨_, rfl⟩ hv, ih hrest]

/-- The canonical package host (`const HOST`). -/
def HOST : String := "https://packages.typst.org"

/-- A `ureq` error as far as `package.rs` discriminates them: an HTTP
status error (`ureq::Error::Status(code, response)`, the response
abstracted to its display) or any other transport error. -/
inductive UreqError where
  | status : Nat → String → UreqError
  | transport : String → UreqError
  deriving DecidableEq, Repr

/-- Display of a `ureq` error (what `eco_format` interpolates). -/
def ureqMessage : UreqError → String
  | .status _ m => m
  | .transport m => m

/-- Whether an error matches the pattern `ureq::Error::Status(404, _)`. -/
def isStatus404 : UreqError → Bool
  | .status 404 _ => true
  | _ => false

/-- `typst::diag::PackageError`, restricted to the variants this file
produces. -/
inductive PackageError where
  | NotFound : PackageSpec → PackageError
  | NetworkFailed : Option String → PackageError
  | MalformedArchive : Option String → PackageError
  deriving DecidableEq, Repr

/-- Result of running a fallible operation that may also panic
(`assert!` failure or `Result::unwrap` on an error). -/
inductive Outcome (α : Type) where
  | ok : α → Outcome α
  | err : PackageError → Outcome α
  | panicked : String → Outcome α
  deriving DecidableEq, Repr

/-- Message of the panic raised by
`assert!(PACKAGE_MIRRORS.0.contains_key(&namespace))`. -/
def assertPanicMsg : String :=
  "assertion failed: PACKAGE_MIRRORS.0.contains_key(&namespace)"

/-- Message of the panic raised by `print_downloading(spec).unwrap()`
when the terminal write fails. -/
def unwrapPanicMsg : String :=
  "called Result::unwrap() on an Err value"

/-- The filesystem, abstracted to which directory paths exist. -/
def FS : Type := String → Bool

/-- Record that path `p` now exists (`b = true`) or does not
(`b = false`); all other paths are untouched. -/
def FS.set (fs : FS) (p : String) (b : Bool) : FS :=
  fun q => if q = p then b else fs q

/-- Downloaded archive bytes, abstract. -/
def Bytes : Type := List Nat

/-- `BTreeMap::get` on the mirror configuration, modelled on an
association list ordered by key. -/
def lookupMirror : List (String × PkgMirror) → String → Option PkgMirror
  | [], _ => none
  | (k, v) :: rest, key => if k = key then some v else lookupMirror rest key

/-- `BTreeMap::contains_key`. -/
def containsKey (m : List (String × PkgMirror)) (key : String) : Bool :=
  (lookupMirror m key).isSome

/-- `BTreeMap::insert`: replace the value at an existing key, otherwise
add the binding. -/
def insertMirror (m : List (String × PkgMirror)) (k : String) (v : PkgMirror) :
    List (String × PkgMirror) :=
  match m with
  | [] => [(k, v)]
  | (k', v') :: rest => if k' = k then (k, v) :: rest else (k', v') :: insertMirror rest k v

/-- `MirrorConfiguration::default()`: the namespace `preview` mapped to
the canonical host's URL template. -/
def defaultMirrors : List (String × PkgMirror) :=
  [("preview", ⟨HOST ++ "/preview/$name-$version.tar.gz"⟩)]

/-- The `PACKAGE_MIRRORS` lazy static: the default configuration with
every entry of the (successfully found and parsed) user configuration
inserted over it; `none` stands for a missing or unparsable user
configuration file, in which case the defaults stand. -/
def buildMirrors (userConfig : Option (List (String × PkgMirror))) :
    List (String × PkgMirror) :=
  match userConfig with
  | none => defaultMirrors
  | some entries => entries.foldl (fun m kv => insertMirror m kv.1 kv.2) defaultMirrors

/-- The environment supplied by the platform and the external
collaborators of `package.rs`: standard directories (`dirs`), the HTTP
transport (`crate::download`), gzip/tar decoding, the terminal, and
directory listing. -/
structure Env where
  /-- `dirs::data_dir()`. -/
  dataDir : Option String
  /-- `dirs::cache_dir()`. -/
  cacheDir : Option String
  /-- The contents of the `PACKAGE_MIRRORS` static. -/
  mirrors : List (String × PkgMirror)
  /-- `download_with_progress(url)`. -/
  fetch : String → Except UreqError Bytes
  /-- Whether gzip-decoding plus tar-unpacking these bytes succeeds. -/
  unpackOk : Bytes → Bool
  /-- The unpack error display when it fails. -/
  unpackMsg : Bytes → String
  /-- Whether `print_downloading` returns `Ok`. -/
  printOk : Bool
  /-- `download(url)` of the package index: the response body. -/
  indexFetch : Except UreqError String
  /-- `response.into_json()` on the index body. -/
  parseIndex : String → Except String (List PackageInfo)
  /-- `std::fs::read_dir`: the entry names of a directory, `none` when
  reading fails. -/
  readDir : String → Option (List String)

/-- The `<app>/packages/<namespace>/<name>/<version>` subdirectory of a
spec (the `subdir` local of `prepare_package`). -/
def packageSubdir (spec : PackageSpec) : String :=
  "typst/packages/" ++ spec.nspace ++ "/" ++ spec.name ++ "/" ++
    versionToString spec.version

/-- `fn download_package(spec, package_dir)`.  Returns the outcome
together with the updated filesystem and the list of URLs fetched. -/
def download_package (env : Env) (fs : FS) (spec : PackageSpec)
    (package_dir : String) : Outcome Unit × FS × List String :=
  match lookupMirror env.mirrors spec.nspace with
  | none => (.panicked assertPanicMsg, fs, [])
  | some mirror =>
    if env.printOk then
      let url := mirror.package_download_url spec.name (versionToString spec.version)
      match env.fetch url with
      | .error e =>
        if isStatus404 e then (.err (.NotFound spec), fs, [url])
        else (.err (.NetworkFailed (some (ureqMessage e))), fs, [url])
      | .ok data =>
        if env.unpackOk data then
          (.ok (), fs.set package_dir true, [url])
        else
          (.err (.MalformedArchive (some (env.unpackMsg data))), fs.set package_dir false, [url])
    else
      (.panicked unwrapPanicMsg, fs, [])

/-- The cache-root half of `prepare_package` (everything after the
persistent-data check). -/
def prepareCache (env : Env) (fs : FS) (spec : PackageSpec) :
    Outcome String × FS × List String :=
  match env.cacheDir with
  | none => (.err (.NotFound spec), fs, [])
  | some cacheRoot =>
    let dir := cacheRoot ++ "/" ++ packageSubdir spec
    let step1 : Outcome Unit × FS × List String :=
      if containsKey env.mirrors spec.nspace && !fs dir then
        download_package env fs spec dir
      else
        (.ok (), fs, [])
    match step1 with
    | (.err e, fs1, t1) => (.err e, fs1, t1)
    | (.panicked m, fs1, t1) => (.panicked m, fs1, t1)
    | (.ok _, fs1, t1) =>
      if fs1 dir then
        (.ok dir, fs1, t1)
      else if spec.nspace = "preview" then
        match download_package env fs1 spec dir with
        | (.ok _, fs2, t2) =>
          if fs2 dir then (.ok dir, fs2, t1 ++ t2)
          else (.err (.NotFound spec), fs2, t1 ++ t2)
        | (.err e, fs2, t2) => (.err e, fs2, t1 ++ t2)
        | (.panicked m, fs2, t2) => (.panicked m, fs2, t1 ++ t2)
      else
        (.err (.NotFound spec), fs1, t1)

/-- `pub fn prepare_package(spec)`: data root first, then the cache
root with downloads, then `NotFound`. -/
def prepare_package (env : Env) (fs : FS) (spec : PackageSpec) :
    Outcome String × FS × List String :=
  match env.dataDir with
  | some dataRoot =>
    let dir := dataRoot ++ "/" ++ packageSubdir spec
    if fs dir then (.ok dir, fs, []) else prepareCache env fs spec
  | none => prepareCache env fs spec

/-- `Iterator::max` on versions: `none` on the empty list, otherwise a
maximal element (on ties the Rust iterator keeps the later element;
versions compare by value, so the choice is unobservable). -/
def maxVersion : List PackageVersion → Option PackageVersion
  | [] => none
  | v :: rest =>
    match maxVersion rest with
    | none => some v
    | some m => if v.vle m then some m else some v

/-- Split a character list on `'.'` separators. -/
def splitDots : List Char → List (List Char)
  | [] => [[]]
  | c :: rest =>
    if c = '.' then [] :: splitDots rest
    else
      match splitDots rest with
      | [] => [[c]]
      | g :: gs => (c :: g) :: gs

/-- Parse a non-empty all-digit character list as a decimal number. -/
def charsToNat : List Char → Option Nat
  | [] => none
  | l =>
    l.foldl
      (fun acc c =>
        match acc with
        | none => none
        | some n => if '0' ≤ c ∧ c ≤ '9' then some (n * 10 + (c.toNat - '0'.toNat)) else none)
      (some 0)

/-- Modelled from the spec: `PackageVersion`'s string parsing
(`FromStr`, in `typst::syntax::package`, not under `src/`) — a version
string is `major.minor.patch`, three dot-separated decimal components
(spec §3: "a totally ordered value (major.minor.patch or similar)"). -/
def parseVersion (s : String) : Option PackageVersion :=
  match splitDots s.data with
  | [a, b, c] =>
    match charsToNat a, charsToNat b, charsToNat c with
    | some x, some y, some z => some ⟨x, y, z⟩
    | _, _, _ => none
  | _ => none

/-- Modelled from the spec: the display of a `VersionlessPackageSpec`
(`impl Display`, in `typst::syntax::package`, not under `src/`) — the
`@namespace/name` form the spec's glossary uses (e.g. `@preview`). -/
def displayVersionless (spec : VersionlessPackageSpec) : String :=
  "@" ++ spec.nspace ++ "/" ++ spec.name

/-- The URL of the `@preview` package index. -/
def indexUrl : String := HOST ++ "/preview/index.json"

/-- `fn download_index()`: fetch and parse the `@preview` index;
returns the result and the URL fetched. -/
def download_index (env : Env) : Except String (List PackageInfo) × List String :=
  (match env.indexFetch with
   | .ok body =>
     match env.parseIndex body with
     | .ok infos => .ok infos
     | .error err => .error ("failed to parse package index: " ++ err)
   | .error (.status 404 _) => .error "failed to fetch package index (not found)"
   | .error e => .error ("failed to fetch package index (" ++ ureqMessage e ++ ")"),
   [indexUrl])

/-- `pub fn determine_latest_version(spec)`.  Returns the result, the
URLs fetched over the network, and the directories enumerated on disk. -/
def determine_latest_version (env : Env) (spec : VersionlessPackageSpec) :
    Except String PackageVersion × List String × List String :=
  if spec.nspace = "preview" then
    match download_index env with
    | (.error e, net) => (.error e, net, [])
    | (.ok packages, net) =>
      (match maxVersion ((packages.filter (fun p => p.name = spec.name)).map
          (fun p => p.version)) with
       | some v => .ok v
       | none => .error ("failed to find package " ++ displayVersionless spec),
       net, [])
  else
    let subdir := "typst/packages/" ++ spec.nspace ++ "/" ++ spec.name
    match env.dataDir with
    | none => (.error "please specify the desired version", [], [])
    | some dataRoot =>
      let dirPath := dataRoot ++ "/" ++ subdir
      let entries := (env.readDir dirPath).getD []
      (match maxVersion (entries.filterMap parseVersion) with
       | some v => .ok v
       | none => .error "please specify the desired version",
       [], [dirPath])

example : parseVersion "1.2.0" = some ⟨1, 2, 0⟩ := by decide
example : parseVersion "1.2" = none := by decide
example : parseVersion "a.b.c" = none := by decide
example :
    maxVersion [⟨0, 1, 0⟩, ⟨0, 2, 0⟩, ⟨0, 1, 5⟩] = some ⟨0, 2, 0⟩ := by decide

theorem vle_iff (a b : PackageVersion) :
    a.vle b = true ↔
      a.major < b.major ∨ (a.major = b.major ∧
        (a.minor < b.minor ∨ (a.minor = b.minor ∧ a.patch ≤ b.patch))) := by
  unfold PackageVersion.vle
  split_ifs <;> simp <;> omega

theorem vle_refl (a : PackageVersion) : a.vle a = true := by
  rw [vle_iff]; omega

theorem vle_trans {a b c : PackageVersion} (h₁ : a.vle b = true)
    (h₂ : b.vle c = true) : a.vle c = true := by
  rw [vle_iff] at h₁ h₂ ⊢; omega

theorem vle_total (a b : PackageVersion) : a.vle b = true ∨ b.vle a = true := by
  rw [vle_iff, vle_iff]; omega

theorem vle_antisymm {a b : PackageVersion} (h₁ : a.vle b = true)
    (h₂ : b.vle a = true) : a = b := by
  rw [vle_iff] at h₁ h₂
  cases a; cases b
  simp only [PackageVersion.mk.injEq]
  simp only at h₁ h₂
  omega

theorem maxVersion_eq_none_iff (l : List PackageVersion) :
    maxVersion l = none ↔ l = [] := by
  cases l with
  | nil => simp [maxVersion]
  | cons v rest =>
    simp only [maxVersion, List.cons_ne_nil, iff_false]
    intro h
    cases hm : maxVersion rest with
    | none => simp [hm] at h
    | some m =>
      simp only [hm] at h
      split at h <;> simp at h

theorem maxVersion_mem {l : List PackageVersion} {v : PackageVersion}
    (h : maxVersion l = some v) : v ∈ l := by
  induction l generalizing v with
  | nil => simp [maxVersion] at h
  | cons w rest ih =>
    simp only [maxVersion] at h
    cases hm : maxVersion rest with
    | none =>
      simp only [hm, Option.some.injEq] at h
      subst h
      exact List.mem_cons_self _ _
    | some m =>
      simp only [hm] at h
      by_cases hc : w.vle m = true
      · rw [if_pos hc] at h
        simp only [Option.some.injEq] at h
        subst h
        exact List.mem_cons_of_mem _ (ih hm)
      · rw [if_neg hc] at h
        simp only [Option.some.injEq] at h
        subst h
        exact List.mem_cons_self _ _

theorem maxVersion_ub {l : List PackageVersion} {v : PackageVersion}
    (h : maxVersion l = some v) : ∀ w ∈ l, w.vle v = true := by
  induction l generalizing v with
  | nil => simp [maxVersion] at h
  | cons w rest ih =>
    intro x hx
    simp only [maxVersion] at h
    cases hm : maxVersion rest with
    | none =>
      simp only [hm, Option.some.injEq] at h
      subst h
      have hrest : rest = [] := (maxVersion_eq_none_iff rest).mp hm
      subst hrest
      simp only [List.mem_singleton] at hx
      subst hx
      exact vle_refl _
    | some m =>
      simp only [hm] at h
      by_cases hc : w.vle m = true
      · rw [if_pos hc] at h
        simp only [Option.some.injEq] at h
        subst h
        rcases List.mem_cons.mp hx with hxw | hxr
        · subst hxw; exact hc
        · exact ih hm x hxr
      · rw [if_neg hc] at h
        simp only [Option.some.injEq] at h
        subst h
        rcases List.mem_cons.mp hx with hxw | hxr
        · subst hxw; exact vle_refl _
        · have hxm := ih hm x hxr
          have hmw : m.vle w = true := by
            rcases vle_total w m with h1 | h1
            · exact absurd h1 hc
            · exact h1
          exact vle_trans hxm hmw

theorem lookup_insertMirror (m : List (String × PkgMirror)) (k : String)
    (v : PkgMirror) (key : String) :
    lookupMirror (insertMirror m k v) key =
      if k = key then some v else lookupMirror m key := by
  induction m with
  | nil => simp [insertMirror, lookupMirror]
  | cons kv rest ih =>
    obtain ⟨k', v'⟩ := kv
    simp only [insertMirror]
    by_cases h : k' = k
    · subst h
      simp only [if_pos rfl, lookupMirror]
      by_cases hk : k' = key
      · subst hk; simp
      · simp [hk]
    · rw [if_neg h]
      simp only [lookupMirror]
      by_cases hk : k' = key
      · subst hk
        rw [if_pos rfl, if_pos rfl]
        rw [if_neg (by intro hh; exact h hh.symm)]
      · rw [if_neg hk, if_neg hk, ih]

theorem containsKey_foldl_insert (entries : List (String × PkgMirror)) :
    ∀ m key, containsKey m key = true →
      containsKey (entries.foldl (fun m kv => insertMirror m kv.1 kv.2) m) key = true := by
  induction entries with
  | nil => intro m key h; exact h
  | cons kv rest ih =>
    intro m key h
    simp only [List.foldl_cons]
    apply ih
    unfold containsKey at h ⊢
    rw [lookup_insertMirror]
    split
    · rfl
    · exact h

/-- The mirror registry always resolves `preview`: the built-in default
seeds it and the user overlay only inserts, never removes. -/
theorem containsKey_buildMirrors_preview
    (cfg : Option (List (String × PkgMirror))) :
    containsKey (buildMirrors cfg) "preview" = true := by
  cases cfg with
  | none => rfl
  | some entries =>
    exact containsKey_foldl_insert entries defaultMirrors "preview" rfl

/-- Whether the user configuration overlay defines `key`. -/
def cfgHasKey (cfg : Option (List (String × PkgMirror))) (key : String) : Bool :=
  match cfg with
  | none => false
  | some entries => entries.any (fun kv => kv.1 = key)

theorem containsKey_foldl_insert_absent (entries : List (String × PkgMirror)) :
    ∀ m key, containsKey m key = false →
      (∀ kv ∈ entries, kv.1 ≠ key) →
      containsKey (entries.foldl (fun m kv => insertMirror m kv.1 kv.2) m) key = false := by
  induction entries with
  | nil => intro m key h _; exact h
  | cons kv rest ih =>
    intro m key h hne
    simp only [List.foldl_cons]
    apply ih
    · unfold containsKey at h ⊢
      rw [lookup_insertMirror]
      rw [if_neg (hne kv (List.mem_cons_self _ _))]
      exact h
    · intro kv' hkv'
      exact hne kv' (List.mem_cons_of_mem _ hkv')

theorem download_package_eq (env : Env) (fs : FS) (spec : PackageSpec)
    (dir : String) (m : PkgMirror)
    (hm : lookupMirror env.mirrors spec.nspace = some m)
    (hp : env.printOk = true) :
    download_package env fs spec dir =
      match env.fetch (m.package_download_url spec.name (versionToString spec.version)) with
      | .error e =>
        if isStatus404 e then
          (.err (.NotFound spec), fs,
            [m.package_download_url spec.name (versionToString spec.version)])
        else
          (.err (.NetworkFailed (some (ureqMessage e))), fs,
            [m.package_download_url spec.name (versionToString spec.version)])
      | .ok data =>
        if env.unpackOk data then
          (.ok (), fs.set dir true,
            [m.package_download_url spec.name (versionToString spec.version)])
        else
          (.err (.MalformedArchive (some (env.unpackMsg data))), fs.set dir false,
            [m.package_download_url spec.name (versionToString spec.version)]) := by
  unfold download_package
  simp only [hm]
  rw [if_pos hp]

theorem containsKey_buildMirrors_absent
    (cfg : Option (List (String × PkgMirror))) (key : String)
    (hdef : containsKey defaultMirrors key = false)
    (hcfg : cfgHasKey cfg key = false) :
    containsKey (buildMirrors cfg) key = false := by
  cases cfg with
  | none => exact hdef
  | some entries =>
    apply containsKey_foldl_insert_absent entries defaultMirrors key hdef
    intro kv hkv hk
    simp only [cfgHasKey] at hcfg
    have hany : entries.any (fun kv => decide (kv.1 = key)) = true :=
      List.any_eq_true.mpr ⟨kv, hkv, by simp [hk]⟩
    simp [hany] at hcfg

/-- The built-in mirror entry for `preview`. -/
def previewMirror : PkgMirror := ⟨HOST ++ "/preview/$name-$version.tar.gz"⟩

/-- A sample spec for witnesses. -/
def sampleSpec : PackageSpec := ⟨"preview", "pkg", ⟨1, 2, 3⟩⟩

/-- The empty filesystem. -/
def emptyFS : FS := fun _ => false

/-- A baseline witness environment: default mirrors, a transport
failure on fetch. -/
def baseEnv : Env where
  dataDir := some "/data"
  cacheDir := some "/cache"
  mirrors := buildMirrors none
  fetch := fun _ => .error (.transport "connection refused")
  unpackOk := fun _ => true
  unpackMsg := fun _ => "truncated archive"
  printOk := true
  indexFetch := .error (.transport "offline")
  parseIndex := fun _ => .error "unused"
  readDir := fun _ => none

/-- A witness environment whose fetch yields HTTP 404. -/
def env404 : Env := { baseEnv with fetch := fun _ => .error (.status 404 "File not found") }

/-- A witness environment whose fetch succeeds but whose archive fails
to unpack. -/
def envBadArchive : Env :=
  { baseEnv with fetch := fun _ => .ok [1], unpackOk := fun _ => false }

/-- A witness environment whose terminal write fails. -/
def envNoPrint : Env := { baseEnv with printOk := false }

/-- C2: with the mirror resolved and the advisory print succeeding, a
404 status from the archive fetch yields `NotFound` carrying the spec,
while any other fetch error yields `NetworkFailed` carrying the
underlying error's message — two distinct outcomes, and the filesystem
is untouched in both cases. -/
theorem c2_notfound_vs_networkfailed (env : Env) (fs : FS) (spec : PackageSpec)
    (dir : String) (m : PkgMirror)
    (hm : lookupMirror env.mirrors spec.nspace = some m)
    (hp : env.printOk = true) :
    (∀ s, env.fetch (m.package_download_url spec.name (versionToString spec.version)) =
          .error (.status 404 s) →
        download_package env fs spec dir =
          (.err (.NotFound spec), fs,
            [m.package_download_url spec.name (versionToString spec.version)])) ∧
    (∀ e, env.fetch (m.package_download_url spec.name (versionToString spec.version)) =
          .error e → isStatus404 e = false →
        download_package env fs spec dir =
          (.err (.NetworkFailed (some (ureqMessage e))), fs,
            [m.package_download_url spec.name (versionToString spec.version)])) := by
  constructor
  · intro s hf
    rw [download_package_eq env fs spec dir m hm hp, hf]
    rfl
  · intro e hf h4
    rw [download_package_eq env fs spec dir m hm hp, hf]
    simp [h4]

/-- Witness for C2: a concrete 404 maps to `NotFound sampleSpec`. -/
theorem c2_witness :
    download_package env404 emptyFS sampleSpec "/cache/typst/packages/preview/pkg/1.2.3" =
      (.err (.NotFound sampleSpec), emptyFS,
        ["https://packages.typst.org/preview/pkg-1.2.3.tar.gz"]) := by
  have h := (c2_notfound_vs_networkfailed env404 emptyFS sampleSpec
    "/cache/typst/packages/preview/pkg/1.2.3" previewMirror (by decide) rfl).1
    "File not found" rfl
  rw [h]
  rfl

/-- C3: with the download succeeded, a failing unpack removes the
target directory and returns `MalformedArchive` with the unpack
message (the target path does not exist afterwards), while a
successful unpack leaves the target directory existing. -/
theorem c3_unpack_rollback (env : Env) (fs : FS) (spec : PackageSpec)
    (dir : String) (m : PkgMirror) (data : Bytes)
    (hm : lookupMirror env.mirrors spec.nspace = some m)
    (hp : env.printOk = true)
    (hf : env.fetch (m.package_download_url spec.name (versionToString spec.version)) =
      .ok data) :
    (env.unpackOk data = false →
      download_package env fs spec dir =
        (.err (.MalformedArchive (some (env.unpackMsg data))), fs.set dir false,
          [m.package_download_url spec.name (versionToString spec.version)]) ∧
      FS.set fs dir false dir = false) ∧
    (env.unpackOk data = true →
      download_package env fs spec dir =
        (.ok (), fs.set dir true,
          [m.package_download_url spec.name (versionToString spec.version)]) ∧
      FS.set fs dir true dir = true) := by
  constructor
  · intro hu
    refine ⟨?_, by simp [FS.set]⟩
    rw [download_package_eq env fs spec dir m hm hp, hf]
    simp [hu]
  · intro hu
    refine ⟨?_, by simp [FS.set]⟩
    rw [download_package_eq env fs spec dir m hm hp, hf]
    simp [hu]

/-- Witness for C3: a concrete corrupt archive rolls the target back. -/
theorem c3_witness :
    download_package envBadArchive emptyFS sampleSpec "/cache/p" =
      (.err (.MalformedArchive (some "truncated archive")),
        FS.set emptyFS "/cache/p" false,
        ["https://packages.typst.org/preview/pkg-1.2.3.tar.gz"]) ∧
    FS.set emptyFS "/cache/p" false "/cache/p" = false := by
  have h := (c3_unpack_rollback envBadArchive emptyFS sampleSpec "/cache/p"
    previewMirror [1] (by decide) rfl rfl).1 rfl
  exact ⟨by rw [h.1]; rfl, h.2⟩

/-- C7 (amended): a failure of the advisory status-line print is not
silently ignored — `download_package` panics on it via `unwrap` before
issuing the network fetch (no URL is fetched); only when printing
succeeds does it proceed to the fetch. -/
theorem c7_print_unwrap (env : Env) (fs : FS) (spec : PackageSpec) (dir : String)
    (m : PkgMirror) (hm : lookupMirror env.mirrors spec.nspace = some m) :
    (env.printOk = false →
      download_package env fs spec dir = (.panicked unwrapPanicMsg, fs, [])) ∧
    (env.printOk = true →
      (download_package env fs spec dir).2.2 =
        [m.package_download_url spec.name (versionToString spec.version)]) := by
  constructor
  · intro hp
    unfold download_package
    simp only [hm]
    rw [if_neg (by simp [hp])]
  · intro hp
    rw [download_package_eq env fs spec dir m hm hp]
    split
    · split <;> rfl
    · split <;> rfl

/-- Counterexample to C7 as stated: at a concrete input with a failing
terminal write, `download_package` aborts by panic and issues no
network fetch, instead of silently ignoring the failure and
proceeding. -/
theorem c7_counterexample :
    envNoPrint.printOk = false ∧
    (download_package envNoPrint emptyFS sampleSpec "/cache/p").1 =
      .panicked unwrapPanicMsg ∧
    (download_package envNoPrint emptyFS sampleSpec "/cache/p").2.2 = [] := by
  exact ⟨rfl, rfl, rfl⟩

/-- Witness for C7 (amended), at the same concrete input. -/
theorem c7_witness :
    download_package envNoPrint emptyFS sampleSpec "/cache/p" =
      (.panicked unwrapPanicMsg, emptyFS, []) := by
  exact (c7_print_unwrap envNoPrint emptyFS sampleSpec "/cache/p" previewMirror
    (by decide)).1 rfl

theorem download_package_fs_cases (env : Env) (fs : FS) (spec : PackageSpec)
    (dir : String) :
    (download_package env fs spec dir).2.1 = fs ∨
    ((download_package env fs spec dir).1 = .ok () ∨
      ∃ msg, (download_package env fs spec dir).1 = .err (.MalformedArchive msg)) := by
  unfold download_package
  cases hl : lookupMirror env.mirrors spec.nspace with
  | none => left; rfl
  | some m =>
    simp only []
    by_cases hp : env.printOk = true
    · rw [if_pos hp]
      split
      · left; split <;> rfl
      · rename_i data heq
        right
        by_cases hu : env.unpackOk data = true
        · left; simp [hu]
        · right; exact ⟨some (env.unpackMsg data), by simp [hu]⟩
    · rw [if_neg hp]
      left; rfl

/-- C10: when `download_package` fails with `NotFound` or
`NetworkFailed` (the download failed before unpacking), the filesystem
is left unchanged — the target directory is not created; rollback by
removal happens only on the `MalformedArchive` path. -/
theorem c10_failed_download_leaves_fs (env : Env) (fs : FS) (spec : PackageSpec)
    (dir : String) (s : PackageSpec) (msg : Option String)
    (h : (download_package env fs spec dir).1 = .err (.NotFound s) ∨
      (download_package env fs spec dir).1 = .err (.NetworkFailed msg)) :
    (download_package env fs spec dir).2.1 = fs := by
  rcases download_package_fs_cases env fs spec dir with hfs | hok | ⟨m, hmal⟩
  · exact hfs
  · rcases h with h | h <;> rw [h] at hok <;> cases hok
  · rcases h with h | h <;> rw [h] at hmal <;> cases hmal

/-- Witness for C10: a concrete transport failure leaves the
filesystem untouched. -/
theorem c10_witness :
    (download_package baseEnv emptyFS sampleSpec "/cache/p").2.1 = emptyFS := by
  exact c10_failed_download_leaves_fs baseEnv emptyFS sampleSpec "/cache/p"
    sampleSpec (some "connection refused") (Or.inr rfl)

/-- C1: if the persistent-data path for the spec exists,
`prepare_package` returns exactly it, leaves the filesystem unchanged
and fetches no URL — the cache path is neither consulted nor returned,
whatever exists there. -/
theorem c1_data_root_wins (env : Env) (fs : FS) (spec : PackageSpec)
    (dataRoot : String) (hdata : env.dataDir = some dataRoot)
    (hexists : fs (dataRoot ++ "/" ++ packageSubdir spec) = true) :
    prepare_package env fs spec =
      (.ok (dataRoot ++ "/" ++ packageSubdir spec), fs, []) := by
  unfold prepare_package
  simp only [hdata]
  rw [if_pos hexists]

/-- A filesystem holding only the sample spec's persistent-data path. -/
def fsDataOnly : FS := fun p => p == "/data/typst/packages/preview/pkg/1.2.3"

/-- Witness for C1. -/
theorem c1_witness :
    prepare_package baseEnv fsDataOnly sampleSpec =
      (.ok "/data/typst/packages/preview/pkg/1.2.3", fsDataOnly, []) := by
  have h := c1_data_root_wins baseEnv fsDataOnly sampleSpec "/data" rfl (by decide)
  rw [h]
  rfl

/-- C4 (amended): for a namespace that is a key neither of the
built-in default mirror map nor of the user overlay, and when neither
the persistent-data path nor the cache path for the spec already
exists, `prepare_package` returns `NotFound spec`, leaves the
filesystem unchanged and performs no network call. -/
theorem c4_unknown_namespace_notfound (cfg : Option (List (String × PkgMirror)))
    (env : Env) (fs : FS) (spec : PackageSpec)
    (hmir : env.mirrors = buildMirrors cfg)
    (hdef : containsKey defaultMirrors spec.nspace = false)
    (hcfg : cfgHasKey cfg spec.nspace = false)
    (hdata : ∀ d, env.dataDir = some d → fs (d ++ "/" ++ packageSubdir spec) = false)
    (hcache : ∀ c, env.cacheDir = some c → fs (c ++ "/" ++ packageSubdir spec) = false) :
    prepare_package env fs spec = (.err (.NotFound spec), fs, []) := by
  have hkey : containsKey env.mirrors spec.nspace = false := by
    rw [hmir]
    exact containsKey_buildMirrors_absent cfg spec.nspace hdef hcfg
  have hnp : spec.nspace ≠ "preview" := by
    intro h
    rw [h] at hdef
    exact absurd hdef (by decide)
  have hcc : prepareCache env fs spec = (.err (.NotFound spec), fs, []) := by
    unfold prepareCache
    cases hc : env.cacheDir with
    | none => rfl
    | some cacheRoot =>
      have hfs := hcache cacheRoot hc
      simp only []
      rw [hkey]
      rw [if_neg (by simp)]
      simp only []
      rw [if_neg (by simp [hfs])]
      rw [if_neg hnp]
  unfold prepare_package
  cases hd : env.dataDir with
  | none => exact hcc
  | some dataRoot =>
    simp only []
    rw [if_neg (by simp [hdata dataRoot hd])]
    exact hcc

/-- A spec in a namespace unknown to the registry. -/
def localSpec : PackageSpec := ⟨"local", "pkg", ⟨1, 0, 0⟩⟩

/-- An environment without a data root. -/
def envNoData : Env := { baseEnv with dataDir := none }

/-- A filesystem holding only the local spec's cache path. -/
def fsCacheOnly : FS := fun p => p == "/cache/typst/packages/local/pkg/1.0.0"

/-- Counterexample to C4 as stated: a namespace absent from both the
default map and the overlay whose cache path happens to exist —
`prepare_package` returns the cache path, not `NotFound` (though still
without any network call). -/
theorem c4_counterexample :
    containsKey (buildMirrors none) "local" = false ∧
    (prepare_package envNoData fsCacheOnly localSpec).1 =
      .ok "/cache/typst/packages/local/pkg/1.0.0" ∧
    (prepare_package envNoData fsCacheOnly localSpec).2.2 = [] := by
  exact ⟨by decide, rfl, rfl⟩

/-- Witness for C4 (amended). -/
theorem c4_witness :
    prepare_package baseEnv emptyFS localSpec =
      (.err (.NotFound localSpec), emptyFS, []) :=
  c4_unknown_namespace_notfound none baseEnv emptyFS localSpec rfl (by decide) rfl
    (fun _ _ => rfl) (fun _ _ => rfl)

theorem download_package_not_assert (env : Env) (fs : FS) (spec : PackageSpec)
    (dir : String) (h : containsKey env.mirrors spec.nspace = true) :
    (download_package env fs spec dir).1 ≠ .panicked assertPanicMsg := by
  unfold download_package
  cases hl : lookupMirror env.mirrors spec.nspace with
  | none => rw [containsKey, hl] at h; simp at h
  | some m =>
    simp only []
    by_cases hp : env.printOk = true
    · rw [if_pos hp]
      split
      · split <;> simp
      · split <;> simp
    · rw [if_neg hp]
      intro hh
      have h2 : unwrapPanicMsg = assertPanicMsg := by injection hh
      exact absurd h2 (by decide)

/-- C9: the archive-fetch assertion (registry contains the namespace)
never fires on any call path from `prepare_package`, for any registry
built from the default map plus a user overlay: step 2a guards the
call by registry membership and step 2c only runs for `preview`, which
the overlay can override but never remove. -/
theorem c9_assert_unreachable (cfg : Option (List (String × PkgMirror)))
    (env : Env) (fs : FS) (spec : PackageSpec)
    (hmir : env.mirrors = buildMirrors cfg) :
    (prepare_package env fs spec).1 ≠ .panicked assertPanicMsg := by
  have hprevkey : spec.nspace = "preview" →
      containsKey env.mirrors spec.nspace = true := by
    intro hprev
    rw [hprev, hmir]
    exact containsKey_buildMirrors_preview cfg
  have hcc : (prepareCache env fs spec).1 ≠ .panicked assertPanicMsg := by
    unfold prepareCache
    cases hc : env.cacheDir with
    | none => simp
    | some cacheRoot =>
      simp only []
      by_cases hk : (containsKey env.mirrors spec.nspace &&
          !fs (cacheRoot ++ "/" ++ packageSubdir spec)) = true
      · rw [if_pos hk]
        have hck : containsKey env.mirrors spec.nspace = true := by
          simp only [Bool.and_eq_true] at hk
          exact hk.1
        have hna := download_package_not_assert env fs spec
          (cacheRoot ++ "/" ++ packageSubdir spec) hck
        obtain ⟨⟨r, fs1, t1⟩, hdp⟩ :
            ∃ x, download_package env fs spec
              (cacheRoot ++ "/" ++ packageSubdir spec) = x := ⟨_, rfl⟩
        rw [hdp] at hna
        rw [hdp]
        cases r with
        | err e => simp
        | panicked mm => simpa using hna
        | ok u =>
          simp only []
          by_cases hf1 : fs1 (cacheRoot ++ "/" ++ packageSubdir spec) = true
          · rw [if_pos hf1]; simp
          · rw [if_neg hf1]
            by_cases hprev : spec.nspace = "preview"
            · rw [if_pos hprev]
              have hna2 := download_package_not_assert env fs1 spec
                (cacheRoot ++ "/" ++ packageSubdir spec) hck
              obtain ⟨⟨r2, fs2, t2⟩, hdp2⟩ :
                  ∃ x, download_package env fs1 spec
                    (cacheRoot ++ "/" ++ packageSubdir spec) = x := ⟨_, rfl⟩
              rw [hdp2] at hna2
              rw [hdp2]
              cases r2 with
              | err e2 => simp
              | panicked m2 => simpa using hna2
              | ok u2 =>
                simp only []
                by_cases hf2 : fs2 (cacheRoot ++ "/" ++ packageSubdir spec) = true
                · rw [if_pos hf2]; simp
                · rw [if_neg hf2]; simp
            · rw [if_neg hprev]; simp
      · rw [if_neg hk]
        simp only []
        by_cases hf1 : fs (cacheRoot ++ "/" ++ packageSubdir spec) = true
        · rw [if_pos hf1]; simp
        · rw [if_neg hf1]
          by_cases hprev : spec.nspace = "preview"
          · rw [if_pos hprev]
            have hna2 := download_package_not_assert env fs spec
              (cacheRoot ++ "/" ++ packageSubdir spec) (hprevkey hprev)
            obtain ⟨⟨r2, fs2, t2⟩, hdp2⟩ :
                ∃ x, download_package env fs spec
                  (cacheRoot ++ "/" ++ packageSubdir spec) = x := ⟨_, rfl⟩
            rw [hdp2] at hna2
            rw [hdp2]
            cases r2 with
            | err e2 => simp
            | panicked m2 => simpa using hna2
            | ok u2 =>
              simp only []
              by_cases hf2 : fs2 (cacheRoot ++ "/" ++ packageSubdir spec) = true
              · rw [if_pos hf2]; simp
              · rw [if_neg hf2]; simp
          · rw [if_neg hprev]; simp
  unfold prepare_package
  cases hd : env.dataDir with
  | none => exact hcc
  | some dataRoot =>
    simp only []
    by_cases hf : fs (dataRoot ++ "/" ++ packageSubdir spec) = true
    · rw [if_pos hf]; simp
    · rw [if_neg hf]; exact hcc

/-- Witness for C9, at a concrete environment with the default
registry. -/
theorem c9_witness :
    (prepare_package baseEnv emptyFS sampleSpec).1 ≠ .panicked assertPanicMsg :=
  c9_assert_unreachable none baseEnv emptyFS sampleSpec rfl

theorem maxVersion_ok_iff (l : List PackageVersion) (err : String)
    (v : PackageVersion) :
    (match maxVersion l with
     | some u => (Except.ok u : Except String PackageVersion)
     | none => .error err) = .ok v ↔
      (v ∈ l ∧ ∀ w ∈ l, w.vle v = true) := by
  cases hmx : maxVersion l with
  | none =>
    simp only [hmx]
    constructor
    · intro h
      simp at h
    · rintro ⟨hv, _⟩
      rw [(maxVersion_eq_none_iff l).mp hmx] at hv
      simp at hv
  | some u =>
    simp only [hmx]
    constructor
    · intro h
      simp only [Except.ok.injEq] at h
      subst h
      exact ⟨maxVersion_mem hmx, maxVersion_ub hmx⟩
    · rintro ⟨hv, hub⟩
      have huv : u = v :=
        vle_antisymm (hub u (maxVersion_mem hmx)) (maxVersion_ub hmx v hv)
      rw [huv]

/-- C5: for namespace `preview`, with the remote index fetched and
parsed, `determine_latest_version` returns exactly the maximum version
(by the total order) among index entries whose name matches, and fails
with the "failed to find package" error when none matches. -/
theorem c5_latest_preview (env : Env) (spec : VersionlessPackageSpec)
    (body : String) (entries : List PackageInfo)
    (hns : spec.nspace = "preview")
    (hfetch : env.indexFetch = .ok body)
    (hparse : env.parseIndex body = .ok entries) :
    (∀ v, (determine_latest_version env spec).1 = .ok v ↔
      (v ∈ (entries.filter (fun p => p.name = spec.name)).map (fun p => p.version) ∧
        ∀ w ∈ (entries.filter (fun p => p.name = spec.name)).map (fun p => p.version),
          w.vle v = true)) ∧
    ((entries.filter (fun p => p.name = spec.name)).map (fun p => p.version) = [] →
      (determine_latest_version env spec).1 =
        .error ("failed to find package " ++ displayVersionless spec)) := by
  have hidx : download_index env = (.ok entries, [indexUrl]) := by
    unfold download_index
    simp only [hfetch, hparse]
  have hdet : (determine_latest_version env spec).1 =
      match maxVersion ((entries.filter (fun p => p.name = spec.name)).map
          (fun p => p.version)) with
      | some u => .ok u
      | none => .error ("failed to find package " ++ displayVersionless spec) := by
    unfold determine_latest_version
    rw [if_pos hns, hidx]
  constructor
  · intro v
    rw [hdet]
    exact maxVersion_ok_iff _ _ v
  · intro hempty
    rw [hdet, hempty]
    rfl

/-- An environment serving a three-entry index. -/
def envIndex : Env :=
  { baseEnv with
    indexFetch := .ok "body"
    parseIndex := fun _ =>
      .ok [⟨"a", ⟨1, 0, 0⟩⟩, ⟨"a", ⟨1, 2, 0⟩⟩, ⟨"b", ⟨9, 0, 0⟩⟩] }

/-- Witness for C5: the spec's own example. -/
theorem c5_witness :
    (determine_latest_version envIndex ⟨"preview", "a"⟩).1 = .ok ⟨1, 2, 0⟩ := by
  exact ((c5_latest_preview envIndex ⟨"preview", "a"⟩ "body"
    [⟨"a", ⟨1, 0, 0⟩⟩, ⟨"a", ⟨1, 2, 0⟩⟩, ⟨"b", ⟨9, 0, 0⟩⟩] rfl rfl rfl).1
    ⟨1, 2, 0⟩).mpr (by decide)

/-- C6: for any non-`preview` namespace, `determine_latest_version`
fetches no URL and enumerates exactly the data-root package directory
(never the cache root); each entry name is parsed as a version, names
that do not parse are ignored, the maximum parsed version is returned,
and when nothing parses the "please specify the desired version"
failure results. -/
theorem c6_latest_local (env : Env) (spec : VersionlessPackageSpec)
    (dataRoot : String) (entries : List String)
    (hns : spec.nspace ≠ "preview")
    (hdata : env.dataDir = some dataRoot)
    (hread : env.readDir (dataRoot ++ "/" ++
      ("typst/packages/" ++ spec.nspace ++ "/" ++ spec.name)) = some entries) :
    (determine_latest_version env spec).2.1 = [] ∧
    (determine_latest_version env spec).2.2 =
      [dataRoot ++ "/" ++ ("typst/packages/" ++ spec.nspace ++ "/" ++ spec.name)] ∧
    (∀ v, (determine_latest_version env spec).1 = .ok v ↔
      (v ∈ entries.filterMap parseVersion ∧
        ∀ w ∈ entries.filterMap parseVersion, w.vle v = true)) ∧
    (entries.filterMap parseVersion = [] →
      (determine_latest_version env spec).1 =
        .error "please specify the desired version") := by
  have hdet : determine_latest_version env spec =
      (match maxVersion (entries.filterMap parseVersion) with
       | some u => .ok u
       | none => .error "please specify the desired version",
       [], [dataRoot ++ "/" ++ ("typst/packages/" ++ spec.nspace ++ "/" ++ spec.name)]) := by
    unfold determine_latest_version
    rw [if_neg hns]
    simp only [hdata, hread, Option.getD_some]
  refine ⟨by rw [hdet], by rw [hdet], fun v => ?_, fun hempty => ?_⟩
  · rw [hdet]
    exact maxVersion_ok_iff _ _ v
  · rw [hdet, hempty]
    rfl

/-- An environment whose data root holds three version directories
(one of them not the maximum) and a non-version entry. -/
def envLocalVersions : Env :=
  { baseEnv with
    readDir := fun p =>
      if p = "/data/typst/packages/local/pkg" then
        some ["0.1.0", "0.2.0", "0.1.5", "README"]
      else none }

/-- Witness for C6: the spec's own example, `0.1.0, 0.2.0, 0.1.5`
resolving to `0.2.0`, with no URL fetched. -/
theorem c6_witness :
    (determine_latest_version envLocalVersions ⟨"local", "pkg"⟩).2.1 = [] ∧
    (determine_latest_version envLocalVersions ⟨"local", "pkg"⟩).1 =
      .ok ⟨0, 2, 0⟩ := by
  have h := c6_latest_local envLocalVersions ⟨"local", "pkg"⟩ "/data"
    ["0.1.0", "0.2.0", "0.1.5", "README"] (by decide) rfl (by decide)
  exact ⟨h.1, (h.2.2.1 ⟨0, 2, 0⟩).mpr (by decide)⟩

/-- C8 (amended): `package_download_url` substitutes the literal
`$name` and `$version` placeholders into the stored template (`$name`
first, then `$version`); for templates in which every `'$'` begins one
of the two placeholders, and for name and version values containing no
`'$'`, the two substitution orders yield the same string.  In general
the orders can differ — see the counterexample, where the name itself
contains `$version`. -/
theorem c8_subst_order (m : PkgMirror) (segs : List Seg) (n v : String)
    (hm : m.path.data = renderTemplate segs)
    (hclean : cleanSegs segs = true)
    (hn : '$' ∉ n.data) (hv : '$' ∉ v.data) :
    m.package_download_url n v = ⟨substSegs n.data v.data segs⟩ ∧
    (⟨replaceAll nameTok n.data (replaceAll verTok v.data m.path.data)⟩ : String) =
      m.package_download_url n v := by
  unfold PkgMirror.package_download_url
  rw [hm]
  constructor
  · rw [replaceAll_name_render n.data segs hclean,
      replaceAll_ver_substName n.data v.data segs hclean hn]
  · rw [replaceAll_ver_render v.data segs hclean,
      replaceAll_name_substVer n.data v.data segs hclean hv,
      replaceAll_name_render n.data segs hclean,
      replaceAll_ver_substName n.data v.data segs hclean hn]

/-- Counterexample to C8 as stated: for template `$name`, name
`$version` and version `v`, substituting `$name` first gives `v`,
while substituting `$version` first gives `$version` — the order of
the two substitutions does matter for arbitrary strings. -/
theorem c8_counterexample :
    PkgMirror.package_download_url ⟨"$name"⟩ "$version" "v" ≠
      ⟨replaceAll nameTok ("$version" : String).data
        (replaceAll verTok ("v" : String).data ("$name" : String).data)⟩ := by
  decide

/-- Witness for C8 (amended), at the template `p/$name-$version`. -/
theorem c8_witness :
    PkgMirror.package_download_url ⟨"p/$name-$version"⟩ "abc" "1.0.0" =
      "p/abc-1.0.0" ∧
    (⟨replaceAll nameTok ("abc" : String).data
        (replaceAll verTok ("1.0.0" : String).data
          ("p/$name-$version" : String).data)⟩ : String) =
      PkgMirror.package_download_url ⟨"p/$name-$version"⟩ "abc" "1.0.0" := by
  have h := c8_subst_order ⟨"p/$name-$version"⟩
    [.lit 'p', .lit '/', .nameph, .lit '-', .verph] "abc" "1.0.0"
    (by decide) (by decide) (by decide) (by decide)
  exact ⟨by rw [h.1]; rfl, h.2⟩

end TypstPackage
